import Mathlib

/-!
Shallow embedding of `src/SyncedVcfData.cpp` (Eagle haplotype phasing package):
the genotype encoders `process_ref_genotypes` / `process_target_genotypes`,
the allele-swap reconciliation logic of `SyncedVcfData::processVcfs`,
the post-loop validation of `processVcfs` / the `SyncedVcfData` constructor,
and the segmentation / bit-packing of `SyncedVcfData::buildGenoBits`.

Modelling conventions:
* A BCF genotype entry (`int32_t` slot of the `gt` array) is modelled by `GtVal`:
  the `bcf_int32_vector_end` sentinel, the missing value (`bcf_gt_is_missing`),
  or an allele index (`bcf_gt_allele`) together with its phased flag
  (`bcf_gt_is_phased`, only consulted for the second slot of a sample).
* `exit(1)` (fatal error) is modelled by returning `none`.
* The 32-bit RNG state `uint w` is a `Nat` reduced mod 2^32 at each store.
* The `double` centiMorgan coordinates are modelled as `Rat` (exact ordered
  field; the code only adds and compares them).
* The `uint64` bit masks `is0/is2/is9` are `Nat`s built by the same `|=` /
  `<<` operations as the code; bit positions stay below 64.
-/

/-- One entry of a BCF genotype array: the vector-end sentinel, a missing
allele, or an allele index with its phased flag. -/
inductive GtVal where
  | vectorEnd : GtVal
  | missing : GtVal
  | allele (idx : Nat) (phased : Bool) : GtVal
deriving DecidableEq

/-- Test for the `bcf_int32_vector_end` sentinel. -/
def isVectorEnd : GtVal → Bool
  | GtVal.vectorEnd => true
  | _ => false

/-- Test for a missing allele (`bcf_gt_is_missing`). -/
def isMissing : GtVal → Bool
  | GtVal.missing => true
  | _ => false

/-- Line 67: `haps[j] = (idx >= 1)` — REF allele -> 0, ALT allele(s) -> 1. -/
def hapVal : GtVal → Bool
  | GtVal.allele idx _ => 1 ≤ idx
  | _ => false

/-- Line 68: the second slot sets `unphased` when it is a non-missing allele
that is not marked phased (`!bcf_gt_is_phased(ptr[j])`). -/
def unphasedFlag : GtVal → Bool
  | GtVal.allele _ phased => !phased
  | _ => false

/-- Allele index of a genotype entry (`bcf_gt_allele`); 0 for non-allele. -/
def alleleIdx : GtVal → Nat
  | GtVal.allele idx _ => idx
  | _ => 0

/-- Line 76: Marsaglia MWC step `w = 18000*(w&65535)+(w>>16)` on the 32-bit
unsigned state `w`. -/
def mwcNext (w : Nat) : Nat :=
  (18000 * (w % 65536) + w / 65536) % 2 ^ 32

/-- Line 204: `uint w = 521288629;` — the fixed RNG seed. -/
def initW : Nat := 521288629

/-- Lines 80-83: if `refAltSwap`, both haplotype booleans are inverted. -/
def applyRefAltSwap (refAltSwap : Bool) (haps : Bool × Bool) : Bool × Bool :=
  if refAltSwap then (!haps.1, !haps.2) else haps

/-- Body of the per-sample loop of `process_ref_genotypes` (lines 52-86).
Returns `((haps0, haps1), (missingIncrement, unphasedIncrement), newW)`;
`none` models `exit(1)` on a vector-end (haploid) entry. -/
def processRefSample (a0 a1 : GtVal) (refAltSwap : Bool) (w : Nat) :
    Option ((Bool × Bool) × (Bool × Bool) × Nat) :=
  if isVectorEnd a0 || isVectorEnd a1 then none
  else if isMissing a0 || isMissing a1 then
    -- lines 71-74: set both alleles to the REF allele, count the site missing
    some (applyRefAltSwap refAltSwap (false, false), (true, false), w)
  else if unphasedFlag a1 then
    -- lines 75-79: randomize phasing of heterozygous unphased calls;
    -- `w` is updated only when `haps[0] != haps[1]` (short-circuit `&&`)
    if hapVal a0 != hapVal a1 then
      some (applyRefAltSwap refAltSwap
              (if mwcNext w % 2 = 1 then (hapVal a1, hapVal a0)
               else (hapVal a0, hapVal a1)),
            (false, true), mwcNext w)
    else
      some (applyRefAltSwap refAltSwap (hapVal a0, hapVal a1), (false, true), w)
  else
    some (applyRefAltSwap refAltSwap (hapVal a0, hapVal a1), (false, false), w)

/-- `process_ref_genotypes` (lines 43-87) over the list of per-sample allele
pairs, threading the RNG state left to right.  Returns the appended
`hapsRef` booleans, `numMissing`, `numUnphased` and the final RNG state. -/
def process_ref_genotypes (gts : List (GtVal × GtVal)) (refAltSwap : Bool)
    (w : Nat) : Option (List Bool × Nat × Nat × Nat) :=
  match gts with
  | [] => some ([], 0, 0, w)
  | (a0, a1) :: rest =>
    match processRefSample a0 a1 refAltSwap w with
    | none => none
    | some (haps, (mi, ui), w1) =>
      match process_ref_genotypes rest refAltSwap w1 with
      | none => none
      | some (hs, nm, nu, w2) =>
        some (haps.1 :: haps.2 :: hs,
              (if mi then 1 else 0) + nm, (if ui then 1 else 0) + nu, w2)

/-- A sample call that takes the phase-randomization path of lines 76-77:
non-missing, second allele unphased, and the two haplotype values differ. -/
def isHetUnphased (p : GtVal × GtVal) : Bool :=
  !(isMissing p.1 || isMissing p.2) && unphasedFlag p.2 &&
    (hapVal p.1 != hapVal p.2)

/-- A reference sample call that does not hit the fatal vector-end check. -/
def refCallOk (p : GtVal × GtVal) : Bool :=
  !(isVectorEnd p.1) && !(isVectorEnd p.2)

/-- The haplotype pair `processRefSample` appends for one sample
(`(false, false)` in the unreachable fatal case). -/
def sampleHaps (p : GtVal × GtVal) (refAltSwap : Bool) (w : Nat) : Bool × Bool :=
  match processRefSample p.1 p.2 refAltSwap w with
  | some (haps, _, _) => haps
  | none => (false, false)

/-- Whether either allele of a sample call is missing. -/
def sampleMissing (p : GtVal × GtVal) : Bool :=
  isMissing p.1 || isMissing p.2

/-- A target sample call that avoids both fatal checks of
`process_target_genotypes`: no vector-end entry and no allele index `> 1`. -/
def callOk (p : GtVal × GtVal) : Bool :=
  !(isVectorEnd p.1) && !(isVectorEnd p.2) &&
    decide (alleleIdx p.1 ≤ 1) && decide (alleleIdx p.2 ≤ 1)

/-- One allele step of the target loop (lines 103-121): vector-end is fatal,
missing is flagged, an allele index `> 1` is fatal, otherwise `g += idx`.
Returns the updated accumulator and whether this allele was missing. -/
def tgtAlleleStep (g : Nat) (a : GtVal) : Option (Nat × Bool) :=
  match a with
  | GtVal.vectorEnd => none
  | GtVal.missing => some (g, true)
  | GtVal.allele idx _ => if 1 < idx then none else some (g + idx, false)

/-- Body of the per-sample loop of `process_target_genotypes` (lines 98-127).
Returns `(code, missingIncrement)`; lines 122-125 turn any missing allele
into code 9. -/
def processTargetSample (a0 a1 : GtVal) : Option (Nat × Bool) :=
  match tgtAlleleStep 0 a0 with
  | none => none
  | some (g0, m0) =>
    match tgtAlleleStep g0 a1 with
    | none => none
    | some (g1, m1) =>
      if m0 || m1 then some (9, true) else some (g1, false)

/-- `process_target_genotypes` (lines 89-128) over the list of per-sample
allele pairs.  Returns the appended `genosTarget` codes and `numMissing`. -/
def process_target_genotypes (gts : List (GtVal × GtVal)) :
    Option (List Nat × Nat) :=
  match gts with
  | [] => some ([], 0)
  | (a0, a1) :: rest =>
    match processTargetSample a0 a1 with
    | none => none
    | some (g, mi) =>
      match process_target_genotypes rest with
      | none => none
      | some (gs, nm) => some (g :: gs, (if mi then 1 else 0) + nm)

/-- Outcome of the allele-swap reconciliation block (lines 238-262):
either the record proceeds with the computed `refAltSwap` flag, or it is
counted in `MrefAltError` and skipped (`continue`). -/
inductive ReconcileResult where
  | proceed (refAltSwap : Bool) : ReconcileResult
  | reconError : ReconcileResult
deriving DecidableEq

/-- Lines 238-262 of `SyncedVcfData::processVcfs`, run when `allowRefAltSwap`
is set: require exactly 2 alleles on both sides, then compare the allele
strings of the target and reference records (`strcmp` on `d.allele[0/1]`).
`proceed true` is the branch that also increments `numRefAltSwaps`;
`reconError` is the branch that increments `MrefAltError` and skips. -/
def reconcileAlleles (refAlleles tgtAlleles : List String) : ReconcileResult :=
  if tgtAlleles.length ≠ 2 ∨ refAlleles.length ≠ 2 then ReconcileResult.reconError
  else if tgtAlleles.getD 0 "" = refAlleles.getD 0 "" ∧
          tgtAlleles.getD 1 "" = refAlleles.getD 1 "" then
    ReconcileResult.proceed false
  else if tgtAlleles.getD 0 "" = refAlleles.getD 1 "" ∧
          tgtAlleles.getD 1 "" = refAlleles.getD 0 "" then
    ReconcileResult.proceed true
  else ReconcileResult.reconError

/-- Line 371: `const uint segMin = 16;`. -/
def segMin : Nat := 16

/-- The segment-boundary test of line 375:
`cMvec.size() == 64 || (cMvec.size() >= segMin && cMs[m] > cMvec[0] + cMmax)`. -/
def segBreak (cMvec : List Rat) (c cMmax : Rat) : Bool :=
  cMvec.length == 64 ||
    (decide (segMin ≤ cMvec.length) && decide (cMvec.headD 0 + cMmax < c))

/-- The loop of lines 374-381 of `buildGenoBits`: `m` counts variants already
consumed, `snpInds`/`cMvec` are the current open segment, and the function
returns the pushed `seg64snpInds` (the final push of line 381 included). -/
def buildSegsGo (cMmax : Rat) :
    List Rat → Nat → List Nat → List Rat → List (List Nat)
  | [], _, snpInds, _ => [snpInds]
  | c :: rest, m, snpInds, cMvec =>
    if segBreak cMvec c cMmax then
      snpInds :: buildSegsGo cMmax rest (m + 1) [m] [c]
    else
      buildSegsGo cMmax rest (m + 1) (snpInds ++ [m]) (cMvec ++ [c])

/-- `seg64snpInds` as built by lines 372-381 of `buildGenoBits` from the
centiMorgan coordinates `cMs` (one per accepted variant) and `cMmax`. -/
def buildSegs (cMs : List Rat) (cMmax : Rat) : List (List Nat) :=
  buildSegsGo cMmax cMs 0 [] []

/-- The `uint64_masks` triple (`Types.hpp`): bit-planes `is0`, `is2`, `is9`.
Each mask is a `Nat` whose bits 0..63 are the used positions. -/
structure uint64_masks where
  is0 : Nat
  is2 : Nat
  is9 : Nat
deriving DecidableEq

/-- The `(uint64)` cast of a C++ `bool`. -/
def b2n (b : Bool) : Nat := if b then 1 else 0

/-- Lines 394-399: the contribution of local position `j` (variant
`m = seg64snpInds[m64][j]`) to the masks of reference individual `n`:
`is0 |= haps0 << j`, `is2 |= haps1 << j`. -/
def refStep (hapsRef : List Bool) (Nref : Nat) (seg : List Nat) (n : Nat)
    (acc : uint64_masks) (j : Nat) : uint64_masks :=
  let m := seg.getD j 0
  let haps0 := hapsRef.getD (m * (2 * Nref) + 2 * n) false
  let haps1 := hapsRef.getD (m * (2 * Nref) + 2 * n + 1) false
  { acc with is0 := acc.is0 ||| b2n haps0 <<< j,
             is2 := acc.is2 ||| b2n haps1 <<< j }

/-- Lines 400-405: the contribution of local position `j` to the masks of
target individual `Nref + nTgt` (genotype code `geno`):
`is0 |= (geno==0) << j`, `is2 |= (geno==2) << j`, `is9 |= (geno==9) << j`. -/
def tgtStep (genosTarget : List Nat) (Ntarget : Nat) (seg : List Nat)
    (nTgt : Nat) (acc : uint64_masks) (j : Nat) : uint64_masks :=
  let m := seg.getD j 0
  let geno := genosTarget.getD (m * Ntarget + nTgt) 0
  { is0 := acc.is0 ||| b2n (geno == 0) <<< j,
    is2 := acc.is2 ||| b2n (geno == 2) <<< j,
    is9 := acc.is9 ||| b2n (geno == 9) <<< j }

/-- The `genoBits[m64 * N + n]` cell built by lines 391-410 for the segment
`seg` and individual `n` (reference side when `n < Nref`, target side
otherwise), starting from the `memset` zero of line 389 and finishing with
the padding loop of lines 407-409 (`is9 |= 1 << j` for
`seg.length ≤ j < 64`). -/
def packCell (hapsRef : List Bool) (genosTarget : List Nat)
    (Nref Ntarget : Nat) (seg : List Nat) (n : Nat) : uint64_masks :=
  let content :=
    if n < Nref then
      (List.range seg.length).foldl (refStep hapsRef Nref seg n) ⟨0, 0, 0⟩
    else
      (List.range seg.length).foldl (tgtStep genosTarget Ntarget seg (n - Nref))
        ⟨0, 0, 0⟩
  { content with
    is9 := (List.range' seg.length (64 - seg.length)).foldl
             (fun a j => a ||| 1 <<< j) content.is9 }

/-- The full `genoBits` array of `buildGenoBits`, indexed
`[segment][individual]` with individuals `0..Nref-1` the reference samples
and `Nref..Nref+Ntarget-1` the target samples. -/
def buildGenoBits (hapsRef : List Bool) (genosTarget : List Nat)
    (cMs : List Rat) (cMmax : Rat) (Nref Ntarget : Nat) :
    List (List uint64_masks) :=
  (buildSegs cMs cMmax).map (fun seg =>
    (List.range (Nref + Ntarget)).map (packCell hapsRef genosTarget Nref Ntarget seg))

/-- Lines 433-438 of the `SyncedVcfData` constructor: accumulate
`physRange` and `cMrange` over consecutive accepted variants on the same
chromosome.  `chrBps` holds `(chromosome, basePairPosition)` pairs, `cMs`
the interpolated centiMorgan coordinates. -/
def ranges (chrBps : List (Int × Int)) (cMs : List Rat) : Int × Rat :=
  (List.range (chrBps.length - 1)).foldl
    (fun acc m =>
      if (chrBps.getD (m + 1) (0, 0)).1 = (chrBps.getD m (0, 0)).1 then
        (acc.1 + ((chrBps.getD (m + 1) (0, 0)).2 - (chrBps.getD m (0, 0)).2),
         acc.2 + (cMs.getD (m + 1) 0 - cMs.getD m 0))
      else acc)
    (0, 0)

/-- The post-join part of the pipeline: the `M <= 1` fatal check of lines
349-352 of `processVcfs`, then the zero-range fatal check of lines 444-451
of the constructor, and only then `buildGenoBits` (line 453).  `none`
models termination by `exit(1)` before any packed output exists. -/
def syncedVcfDataBuild (chrBps : List (Int × Int)) (cMs : List Rat)
    (hapsRef : List Bool) (genosTarget : List Nat) (cMmax : Rat)
    (Nref Ntarget : Nat) : Option (List (List uint64_masks)) :=
  if chrBps.length ≤ 1 then none
  else if (ranges chrBps cMs).1 = 0 ∨ (ranges chrBps cMs).2 = 0 then none
  else some (buildGenoBits hapsRef genosTarget cMs cMmax Nref Ntarget)

/-! ### Per-sample facts about `processRefSample` -/

theorem processRefSample_swap_eq (a0 a1 : GtVal) (w : Nat) :
    processRefSample a0 a1 true w =
      (processRefSample a0 a1 false w).map
        (fun r => ((!r.1.1, !r.1.2), r.2)) := by
  unfold processRefSample applyRefAltSwap
  split_ifs <;> simp_all

/-- Claim C7: with allele-swap reconciliation enabled, a joined record with
anything but exactly 2 alleles on both sides is a reconciliation error;
otherwise an exact allele-string match proceeds without swap, an exact
reverse match (tried after the exact match) proceeds with `refAltSwap = true`
and counts a swap, and any other relationship is a reconciliation error. -/
theorem c7_reconcileAlleles_cases (refAlleles tgtAlleles : List String) :
    (¬(refAlleles.length = 2 ∧ tgtAlleles.length = 2) →
        reconcileAlleles refAlleles tgtAlleles = ReconcileResult.reconError) ∧
    (refAlleles.length = 2 → tgtAlleles.length = 2 →
      tgtAlleles.getD 0 "" = refAlleles.getD 0 "" →
      tgtAlleles.getD 1 "" = refAlleles.getD 1 "" →
        reconcileAlleles refAlleles tgtAlleles = ReconcileResult.proceed false) ∧
    (refAlleles.length = 2 → tgtAlleles.length = 2 →
      ¬(tgtAlleles.getD 0 "" = refAlleles.getD 0 "" ∧
        tgtAlleles.getD 1 "" = refAlleles.getD 1 "") →
      tgtAlleles.getD 0 "" = refAlleles.getD 1 "" →
      tgtAlleles.getD 1 "" = refAlleles.getD 0 "" →
        reconcileAlleles refAlleles tgtAlleles = ReconcileResult.proceed true) ∧
    (refAlleles.length = 2 → tgtAlleles.length = 2 →
      ¬(tgtAlleles.getD 0 "" = refAlleles.getD 0 "" ∧
        tgtAlleles.getD 1 "" = refAlleles.getD 1 "") →
      ¬(tgtAlleles.getD 0 "" = refAlleles.getD 1 "" ∧
        tgtAlleles.getD 1 "" = refAlleles.getD 0 "") →
        reconcileAlleles refAlleles tgtAlleles = ReconcileResult.reconError) := by
  unfold reconcileAlleles
  refine ⟨?_, ?_, ?_, ?_⟩ <;> intros <;> split_ifs <;> simp_all

/-- Claim C9: after the joint iteration, the pipeline terminates with a
fatal error — producing no packed output — exactly when fewer than 2
variants were accepted, or the accepted list's physical base-pair span or
genetic centiMorgan span is zero. -/
theorem c9_fatal_iff (chrBps : List (Int × Int)) (cMs : List Rat)
    (hapsRef : List Bool) (genosTarget : List Nat) (cMmax : Rat)
    (Nref Ntarget : Nat) :
    syncedVcfDataBuild chrBps cMs hapsRef genosTarget cMmax Nref Ntarget = none ↔
      (chrBps.length < 2 ∨ (ranges chrBps cMs).1 = 0 ∨
        (ranges chrBps cMs).2 = 0) := by
  unfold syncedVcfDataBuild
  split_ifs with h1 h2
  · exact iff_of_true rfl (Or.inl (by omega))
  · exact iff_of_true rfl (Or.inr h2)
  · refine iff_of_false (by simp) ?_
    rintro (h | h | h)
    · omega
    · exact h2 (Or.inl h)
    · exact h2 (Or.inr h)

/-- Claim C6 as stated is false on the code: a homozygous unphased
non-missing reference call (here `0/0`, second allele not phased) does
increment the unphased counter, because `numUnphased++` at line 78 is
outside the `haps[0] != haps[1]` guard of line 76.  The run below returns
`numUnphased = 1` although the two alleles are equal. -/
theorem c6_counterexample :
    process_ref_genotypes [(GtVal.allele 0 true, GtVal.allele 0 false)]
        false initW = some ([false, false], 0, 1, initW) ∧
      hapVal (GtVal.allele 0 true) = hapVal (GtVal.allele 0 false) :=
  ⟨rfl, rfl⟩

/-- Amended C6: for a reference sample call with no vector-end entry, the
unphased counter is incremented exactly when the call is non-missing and its
second allele is not marked phased — whether or not the two alleles differ —
while a homozygous call never advances the RNG state (no phase
randomization). -/
theorem c6_unphased_counter (a0 a1 : GtVal) (refAltSwap : Bool) (w : Nat)
    (h0 : isVectorEnd a0 = false) (h1 : isVectorEnd a1 = false) :
    ∃ haps mi ui w2,
      processRefSample a0 a1 refAltSwap w = some (haps, (mi, ui), w2) ∧
      ui = (!(isMissing a0 || isMissing a1) && unphasedFlag a1) ∧
      (hapVal a0 = hapVal a1 → w2 = w) := by
  unfold processRefSample
  split_ifs with hv hm hu hd hp
  · simp [h0, h1] at hv
  · exact ⟨_, _, _, _, rfl, by simp [hm], fun _ => rfl⟩
  · exact ⟨_, _, _, _, rfl, by simp [hm, hu],
      fun he => absurd he (by simpa using hd)⟩
  · exact ⟨_, _, _, _, rfl, by simp [hm, hu],
      fun he => absurd he (by simpa using hd)⟩
  · exact ⟨_, _, _, _, rfl, by simp [hm, hu], fun _ => rfl⟩
  · exact ⟨_, _, _, _, rfl, by simp [hm, hu], fun _ => rfl⟩

/-- Claim C8: at a biallelic site whose target alleles exactly mirror the
reference alleles (so the reconciliation of lines 249-257 sets
`refAltSwap = true`), the reference haplotype booleans appended by
`process_ref_genotypes` are, sample by sample, the logical complements of
the ones appended without the swap, with the same missing/unphased counters
and the same RNG state evolution. -/
theorem c8_refAltSwap_complement (refAlleles tgtAlleles : List String)
    (gts : List (GtVal × GtVal)) (w : Nat) (hs : List Bool) (nm nu w2 : Nat)
    (hswap : reconcileAlleles refAlleles tgtAlleles =
      ReconcileResult.proceed true)
    (hrun : process_ref_genotypes gts false w = some (hs, nm, nu, w2)) :
    process_ref_genotypes gts true w = some (hs.map not, nm, nu, w2) := by
  clear hswap
  induction gts generalizing w hs nm nu w2 with
  | nil =>
    simp only [process_ref_genotypes, Option.some.injEq, Prod.mk.injEq] at hrun
    obtain ⟨rfl, rfl, rfl, rfl⟩ := hrun
    simp [process_ref_genotypes]
  | cons p rest ih =>
    obtain ⟨a0, a1⟩ := p
    cases hps : processRefSample a0 a1 false w with
    | none => simp [process_ref_genotypes, hps] at hrun
    | some r =>
      obtain ⟨hp, ⟨mi, ui⟩, w1⟩ := r
      cases hrec : process_ref_genotypes rest false w1 with
      | none => simp [process_ref_genotypes, hps, hrec] at hrun
      | some r2 =>
        obtain ⟨hs2, nm2, nu2, w22⟩ := r2
        simp only [process_ref_genotypes, hps, hrec, Option.some.injEq,
          Prod.mk.injEq] at hrun
        obtain ⟨rfl, rfl, rfl, rfl⟩ := hrun
        simp only [process_ref_genotypes, processRefSample_swap_eq, hps,
          Option.map_some', ih w1 hs2 nm2 nu2 w22 hrec, List.map_cons]

theorem tgtAlleleStep_ok (g : Nat) (a : GtVal) (hv : isVectorEnd a = false)
    (hi : alleleIdx a ≤ 1) :
    tgtAlleleStep g a = some (g + alleleIdx a, isMissing a) := by
  cases a with
  | vectorEnd => simp [isVectorEnd] at hv
  | missing => simp [tgtAlleleStep, alleleIdx, isMissing]
  | allele idx ph =>
    simp only [alleleIdx] at hi
    simp only [tgtAlleleStep, alleleIdx, isMissing]
    rw [if_neg (by omega)]

theorem processTargetSample_ok (a0 a1 : GtVal) (h : callOk (a0, a1) = true) :
    processTargetSample a0 a1 =
      some (if sampleMissing (a0, a1) then 9 else alleleIdx a0 + alleleIdx a1,
            sampleMissing (a0, a1)) := by
  simp only [callOk, Bool.and_eq_true, Bool.not_eq_true', decide_eq_true_eq] at h
  obtain ⟨⟨⟨hv0, hv1⟩, hi0⟩, hi1⟩ := h
  simp only [processTargetSample, tgtAlleleStep_ok 0 a0 hv0 hi0, Nat.zero_add,
    tgtAlleleStep_ok (alleleIdx a0) a1 hv1 hi1, sampleMissing]
  by_cases hm : (isMissing a0 || isMissing a1) = true
  · simp [hm]
  · simp only [Bool.not_eq_true] at hm
    simp [hm]

/-- Claim C3: under diploid calls whose allele indices are at most 1,
`process_target_genotypes` appends exactly one code per sample; the code is
9 exactly for samples with a missing allele (which are the ones counted in
`numMissing`), and otherwise is the sum of the two allele indices; every
appended code is 0, 1, 2 or 9. -/
theorem c3_target_codes (gts : List (GtVal × GtVal))
    (h : ∀ p ∈ gts, callOk p = true) :
    ∃ gs nm, process_target_genotypes gts = some (gs, nm) ∧
      gs.length = gts.length ∧
      nm = gts.countP (fun p => sampleMissing p) ∧
      (∀ i, i < gts.length →
        gs.getD i 0 =
          if sampleMissing (gts.getD i (GtVal.missing, GtVal.missing)) then 9
          else alleleIdx (gts.getD i (GtVal.missing, GtVal.missing)).1 +
               alleleIdx (gts.getD i (GtVal.missing, GtVal.missing)).2) ∧
      (∀ g ∈ gs, g = 0 ∨ g = 1 ∨ g = 2 ∨ g = 9) := by
  induction gts with
  | nil => exact ⟨[], 0, rfl, rfl, rfl, by simp, by simp⟩
  | cons p rest ih =>
    obtain ⟨a0, a1⟩ := p
    obtain ⟨gs, nm, hrun, hlen, hcount, hidx, hmem⟩ :=
      ih (fun q hq => h q (List.mem_cons_of_mem _ hq))
    have hp := processTargetSample_ok a0 a1 (h _ (List.mem_cons_self _ _))
    refine ⟨(if sampleMissing (a0, a1) then 9
             else alleleIdx a0 + alleleIdx a1) :: gs,
            (if sampleMissing (a0, a1) then 1 else 0) + nm, ?_, ?_, ?_, ?_, ?_⟩
    · simp [process_target_genotypes, hp, hrun]
    · simp [hlen]
    · rw [List.countP_cons]
      by_cases hsm : sampleMissing (a0, a1) <;>
        simp [hsm, hcount, Nat.add_comm]
    · intro i hi
      cases i with
      | zero => simp
      | succ n => simpa using hidx n (by simpa using hi)
    · intro g hg
      rcases List.mem_cons.1 hg with rfl | hg2
      · have hok := h (a0, a1) (List.mem_cons_self _ _)
        simp only [callOk, Bool.and_eq_true, decide_eq_true_eq] at hok
        by_cases hsm : sampleMissing (a0, a1) <;> simp [hsm] <;> omega
      · exact hmem g hg2

theorem getD_mem_of_lt {α : Type} (l : List α) (i : Nat) (d : α)
    (hi : i < l.length) : l.getD i d ∈ l := by
  rw [List.getD_eq_getElem?_getD, List.getElem?_eq_getElem hi]
  exact List.getElem_mem hi

theorem processRefSample_state (a0 a1 : GtVal) (swap : Bool) (w : Nat)
    (hok : refCallOk (a0, a1) = true) :
    processRefSample a0 a1 swap w =
      some (sampleHaps (a0, a1) swap w,
            (isMissing a0 || isMissing a1,
             !(isMissing a0 || isMissing a1) && unphasedFlag a1),
            if isHetUnphased (a0, a1) then mwcNext w else w) := by
  simp only [refCallOk, Bool.and_eq_true, Bool.not_eq_true'] at hok
  obtain ⟨hv0, hv1⟩ := hok
  unfold sampleHaps isHetUnphased
  unfold processRefSample
  rw [hv0, hv1]
  simp only [Bool.or_self, Bool.false_eq_true, if_false]
  split_ifs <;> simp_all <;> (intros; simp_all)

theorem processRefSample_het (p : GtVal × GtVal) (swap : Bool) (w : Nat)
    (hv0 : isVectorEnd p.1 = false) (hv1 : isVectorEnd p.2 = false)
    (hhet : isHetUnphased p = true) :
    sampleHaps p swap w =
      applyRefAltSwap swap
        (if mwcNext w % 2 = 1 then (hapVal p.2, hapVal p.1)
         else (hapVal p.1, hapVal p.2)) := by
  obtain ⟨a0, a1⟩ := p
  simp only [isHetUnphased, Bool.and_eq_true, Bool.not_eq_true'] at hhet
  obtain ⟨⟨hm, hu⟩, hd⟩ := hhet
  unfold sampleHaps processRefSample
  rw [hv0, hv1, hm, hu, hd]
  simp

theorem process_ref_spec (swap : Bool) (gts : List (GtVal × GtVal)) (w : Nat)
    (h : ∀ p ∈ gts, refCallOk p = true) :
    ∃ hs nm nu, process_ref_genotypes gts swap w =
        some (hs, nm, nu,
          mwcNext^[gts.countP (fun p => isHetUnphased p)] w) ∧
      hs.length = 2 * gts.length ∧
      ∀ i, i < gts.length →
        (hs.getD (2 * i) false, hs.getD (2 * i + 1) false) =
          sampleHaps (gts.getD i (GtVal.missing, GtVal.missing)) swap
            (mwcNext^[(gts.take i).countP (fun p => isHetUnphased p)] w) := by
  induction gts generalizing w with
  | nil => exact ⟨[], 0, 0, by simp [process_ref_genotypes], by simp, by simp⟩
  | cons p rest ih =>
    obtain ⟨a0, a1⟩ := p
    have hp := processRefSample_state a0 a1 swap w (h _ (List.mem_cons_self _ _))
    obtain ⟨hs, nm, nu, hrun, hlen, hidx⟩ :=
      ih (if isHetUnphased (a0, a1) then mwcNext w else w)
        (fun q hq => h q (List.mem_cons_of_mem _ hq))
    refine ⟨(sampleHaps (a0, a1) swap w).1 :: (sampleHaps (a0, a1) swap w).2 :: hs,
            (if (isMissing a0 || isMissing a1) = true then 1 else 0) + nm,
            (if (!(isMissing a0 || isMissing a1) && unphasedFlag a1) = true
             then 1 else 0) + nu, ?_, ?_, ?_⟩
    · simp only [process_ref_genotypes, hp, hrun, List.countP_cons]
      by_cases hhet : isHetUnphased (a0, a1) = true
      · simp [hhet, Function.iterate_succ_apply]
      · simp only [Bool.not_eq_true] at hhet
        simp [hhet]
    · simp [hlen]
      omega
    · intro i hi
      cases i with
      | zero => simp
      | succ n =>
        have h2 : 2 * (n + 1) = 2 * n + 1 + 1 := by ring
        rw [h2]
        simp only [List.getD_cons_succ, List.take_succ_cons, List.countP_cons]
        rw [hidx n (by simpa using hi)]
        by_cases hhet : isHetUnphased (a0, a1) = true
        · simp [hhet, Function.iterate_succ_apply, Nat.add_comm]
        · simp only [Bool.not_eq_true] at hhet
          simp [hhet]

/-- Claim C4: starting from the fixed seed `initW = 521288629`, the RNG state
is advanced by `mwcNext` exactly once per heterozygous unphased call, and the
haplotype pair appended for the `i`-th sample, when that call is heterozygous
unphased, is swapped exactly when the `(k+1)`-th iterate of `mwcNext` on the
seed is odd, `k` being the number of heterozygous unphased calls before `i`.
The right-hand sides depend only on the call sequence and the seed, so two
runs over the same call sequence make identical swap decisions. -/
theorem c4_phase_randomization (gts : List (GtVal × GtVal)) (swap : Bool)
    (h : ∀ p ∈ gts, refCallOk p = true) :
    ∃ hs nm nu, process_ref_genotypes gts swap initW =
        some (hs, nm, nu,
          mwcNext^[gts.countP (fun p => isHetUnphased p)] initW) ∧
      ∀ i, i < gts.length →
        isHetUnphased (gts.getD i (GtVal.missing, GtVal.missing)) = true →
        (hs.getD (2 * i) false, hs.getD (2 * i + 1) false) =
          applyRefAltSwap swap
            (if mwcNext^[(gts.take i).countP (fun p => isHetUnphased p) + 1]
                  initW % 2 = 1
             then (hapVal (gts.getD i (GtVal.missing, GtVal.missing)).2,
                   hapVal (gts.getD i (GtVal.missing, GtVal.missing)).1)
             else (hapVal (gts.getD i (GtVal.missing, GtVal.missing)).1,
                   hapVal (gts.getD i (GtVal.missing, GtVal.missing)).2)) := by
  obtain ⟨hs, nm, nu, hrun, hlen, hidx⟩ := process_ref_spec swap gts initW h
  refine ⟨hs, nm, nu, hrun, ?_⟩
  intro i hi hhet
  rw [hidx i hi]
  have hok := h _ (getD_mem_of_lt gts i (GtVal.missing, GtVal.missing) hi)
  simp only [refCallOk, Bool.and_eq_true, Bool.not_eq_true'] at hok
  rw [processRefSample_het _ swap _ hok.1 hok.2 hhet,
    Function.iterate_succ_apply']

theorem testBit_b2n_shift (b : Bool) (j k : Nat) :
    (b2n b <<< j).testBit k = (decide (j = k) && b) := by
  cases b
  · simp [b2n]
  · rw [show b2n true = 1 from rfl, Nat.shiftLeft_eq, Nat.one_mul,
      Nat.testBit_two_pow]
    simp

theorem testBit_foldl_orShift (c : Nat → Bool) (l : List Nat) (a k : Nat) :
    (l.foldl (fun x j => x ||| b2n (c j) <<< j) a).testBit k =
      (a.testBit k || (decide (k ∈ l) && c k)) := by
  induction l generalizing a with
  | nil => simp
  | cons x xs ih =>
    rw [List.foldl_cons, ih, Nat.testBit_or, testBit_b2n_shift]
    by_cases hkx : k = x
    · subst hkx
      simp [List.mem_cons]
      cases a.testBit k <;> cases c k <;> simp
    · simp [List.mem_cons, hkx, Ne.symm hkx]

theorem testBit_foldl_orOne (l : List Nat) (a k : Nat) :
    (l.foldl (fun x j => x ||| 1 <<< j) a).testBit k =
      (a.testBit k || decide (k ∈ l)) := by
  induction l generalizing a with
  | nil => simp
  | cons x xs ih =>
    rw [List.foldl_cons, ih, Nat.testBit_or]
    have h1 : ((1 : Nat) <<< x).testBit k = decide (x = k) := by
      rw [Nat.shiftLeft_eq, Nat.one_mul, Nat.testBit_two_pow]
    rw [h1]
    by_cases hkx : k = x
    · subst hkx
      simp [List.mem_cons]
    · simp [List.mem_cons, hkx, Ne.symm hkx]

theorem foldl_refStep_is0 (haps : List Bool) (Nref : Nat) (seg : List Nat)
    (n : Nat) (l : List Nat) (acc : uint64_masks) :
    (l.foldl (refStep haps Nref seg n) acc).is0 =
      l.foldl (fun x j => x |||
        b2n (haps.getD ((seg.getD j 0) * (2 * Nref) + 2 * n) false) <<< j)
        acc.is0 := by
  induction l generalizing acc with
  | nil => rfl
  | cons x xs ih =>
    simp only [List.foldl_cons, ih]
    rfl

theorem foldl_refStep_is2 (haps : List Bool) (Nref : Nat) (seg : List Nat)
    (n : Nat) (l : List Nat) (acc : uint64_masks) :
    (l.foldl (refStep haps Nref seg n) acc).is2 =
      l.foldl (fun x j => x |||
        b2n (haps.getD ((seg.getD j 0) * (2 * Nref) + 2 * n + 1) false) <<< j)
        acc.is2 := by
  induction l generalizing acc with
  | nil => rfl
  | cons x xs ih =>
    simp only [List.foldl_cons, ih]
    rfl

theorem foldl_refStep_is9 (haps : List Bool) (Nref : Nat) (seg : List Nat)
    (n : Nat) (l : List Nat) (acc : uint64_masks) :
    (l.foldl (refStep haps Nref seg n) acc).is9 = acc.is9 := by
  induction l generalizing acc with
  | nil => rfl
  | cons x xs ih =>
    simp only [List.foldl_cons, ih]
    rfl

theorem foldl_tgtStep_is0 (genos : List Nat) (Ntarget : Nat) (seg : List Nat)
    (nTgt : Nat) (l : List Nat) (acc : uint64_masks) :
    (l.foldl (tgtStep genos Ntarget seg nTgt) acc).is0 =
      l.foldl (fun x j => x |||
        b2n (genos.getD ((seg.getD j 0) * Ntarget + nTgt) 0 == 0) <<< j)
        acc.is0 := by
  induction l generalizing acc with
  | nil => rfl
  | cons x xs ih =>
    simp only [List.foldl_cons, ih]
    rfl

theorem foldl_tgtStep_is2 (genos : List Nat) (Ntarget : Nat) (seg : List Nat)
    (nTgt : Nat) (l : List Nat) (acc : uint64_masks) :
    (l.foldl (tgtStep genos Ntarget seg nTgt) acc).is2 =
      l.foldl (fun x j => x |||
        b2n (genos.getD ((seg.getD j 0) * Ntarget + nTgt) 0 == 2) <<< j)
        acc.is2 := by
  induction l generalizing acc with
  | nil => rfl
  | cons x xs ih =>
    simp only [List.foldl_cons, ih]
    rfl

theorem foldl_tgtStep_is9 (genos : List Nat) (Ntarget : Nat) (seg : List Nat)
    (nTgt : Nat) (l : List Nat) (acc : uint64_masks) :
    (l.foldl (tgtStep genos Ntarget seg nTgt) acc).is9 =
      l.foldl (fun x j => x |||
        b2n (genos.getD ((seg.getD j 0) * Ntarget + nTgt) 0 == 9) <<< j)
        acc.is9 := by
  induction l generalizing acc with
  | nil => rfl
  | cons x xs ih =>
    simp only [List.foldl_cons, ih]
    rfl

theorem packCell_ref_is0 (haps : List Bool) (genos : List Nat)
    (Nref Ntarget : Nat) (seg : List Nat) (n k : Nat) (hn : n < Nref) :
    ((packCell haps genos Nref Ntarget seg n).is0).testBit k =
      (decide (k < seg.length) &&
        haps.getD ((seg.getD k 0) * (2 * Nref) + 2 * n) false) := by
  simp only [packCell, if_pos hn]
  rw [foldl_refStep_is0, testBit_foldl_orShift]
  simp [List.mem_range]

theorem packCell_ref_is2 (haps : List Bool) (genos : List Nat)
    (Nref Ntarget : Nat) (seg : List Nat) (n k : Nat) (hn : n < Nref) :
    ((packCell haps genos Nref Ntarget seg n).is2).testBit k =
      (decide (k < seg.length) &&
        haps.getD ((seg.getD k 0) * (2 * Nref) + 2 * n + 1) false) := by
  simp only [packCell, if_pos hn]
  rw [foldl_refStep_is2, testBit_foldl_orShift]
  simp [List.mem_range]

theorem packCell_ref_is9 (haps : List Bool) (genos : List Nat)
    (Nref Ntarget : Nat) (seg : List Nat) (n k : Nat) (hn : n < Nref) :
    ((packCell haps genos Nref Ntarget seg n).is9).testBit k =
      decide (k ∈ List.range' seg.length (64 - seg.length)) := by
  simp only [packCell, if_pos hn]
  rw [testBit_foldl_orOne, foldl_refStep_is9]
  simp

theorem packCell_tgt_is0 (haps : List Bool) (genos : List Nat)
    (Nref Ntarget : Nat) (seg : List Nat) (n k : Nat) (hn : ¬ n < Nref) :
    ((packCell haps genos Nref Ntarget seg n).is0).testBit k =
      (decide (k < seg.length) &&
        (genos.getD ((seg.getD k 0) * Ntarget + (n - Nref)) 0 == 0)) := by
  simp only [packCell, if_neg hn]
  rw [foldl_tgtStep_is0, testBit_foldl_orShift]
  simp [List.mem_range]

theorem packCell_tgt_is2 (haps : List Bool) (genos : List Nat)
    (Nref Ntarget : Nat) (seg : List Nat) (n k : Nat) (hn : ¬ n < Nref) :
    ((packCell haps genos Nref Ntarget seg n).is2).testBit k =
      (decide (k < seg.length) &&
        (genos.getD ((seg.getD k 0) * Ntarget + (n - Nref)) 0 == 2)) := by
  simp only [packCell, if_neg hn]
  rw [foldl_tgtStep_is2, testBit_foldl_orShift]
  simp [List.mem_range]

theorem packCell_tgt_is9 (haps : List Bool) (genos : List Nat)
    (Nref Ntarget : Nat) (seg : List Nat) (n k : Nat) (hn : ¬ n < Nref) :
    ((packCell haps genos Nref Ntarget seg n).is9).testBit k =
      ((decide (k < seg.length) &&
        (genos.getD ((seg.getD k 0) * Ntarget + (n - Nref)) 0 == 9)) ||
       decide (k ∈ List.range' seg.length (64 - seg.length))) := by
  simp only [packCell, if_neg hn]
  rw [testBit_foldl_orOne, foldl_tgtStep_is9, testBit_foldl_orShift]
  simp [List.mem_range]

theorem mem_range'_iff (s n k : Nat) :
    k ∈ List.range' s n ↔ s ≤ k ∧ k < s + n := by
  rw [List.mem_range']
  constructor
  · rintro ⟨i, hi, rfl⟩
    omega
  · rintro ⟨h1, h2⟩
    exact ⟨k - s, by omega, by omega⟩

theorem getD_map_of_lt {α β : Type} (f : α → β) (l : List α) (i : Nat)
    (d : β) (e : α) (hi : i < l.length) :
    (l.map f).getD i d = f (l.getD i e) := by
  rw [List.getD_eq_getElem?_getD, List.getElem?_map,
    List.getElem?_eq_getElem hi, Option.map_some', Option.getD_some,
    List.getD_eq_getElem?_getD, List.getElem?_eq_getElem hi, Option.getD_some]

theorem buildGenoBits_cell (haps : List Bool) (genos : List Nat)
    (cMs : List Rat) (cMmax : Rat) (Nref Ntarget : Nat) (i n : Nat)
    (hi : i < (buildSegs cMs cMmax).length) (hn : n < Nref + Ntarget) :
    ((buildGenoBits haps genos cMs cMmax Nref Ntarget).getD i []).getD n
        ⟨0, 0, 0⟩ =
      packCell haps genos Nref Ntarget ((buildSegs cMs cMmax).getD i []) n := by
  unfold buildGenoBits
  rw [getD_map_of_lt _ _ i [] [] hi]
  rw [getD_map_of_lt
    (packCell haps genos Nref Ntarget ((buildSegs cMs cMmax).getD i []))
    (List.range (Nref + Ntarget)) n ⟨0, 0, 0⟩ 0 (by simpa using hn)]
  rw [List.getD_eq_getElem?_getD (List.range (Nref + Ntarget)) n 0,
    List.getElem?_range hn, Option.getD_some]

theorem headD_drop {α : Type} (l : List α) (n : Nat) (d : α) :
    (l.drop n).headD d = l.getD n d := by
  induction l generalizing n with
  | nil => simp
  | cons x xs ih =>
    cases n with
    | zero => simp
    | succ m => simpa using ih m

theorem getD_append_lt {α : Type} (l l2 : List α) (n : Nat) (d : α)
    (h : n < l.length) : (l ++ l2).getD n d = l.getD n d := by
  induction l generalizing n with
  | nil => simp at h
  | cons x xs ih =>
    cases n with
    | zero => simp
    | succ m =>
      simp only [List.cons_append, List.getD_cons_succ]
      exact ih m (by simpa using h)

theorem getD_append_len {α : Type} (l : List α) (x : α) (d : α) :
    (l ++ [x]).getD l.length d = x := by
  induction l with
  | nil => simp
  | cons y ys ih => simpa using ih

theorem headD_append_left {α : Type} (l l2 : List α) (d : α) (h : l ≠ []) :
    (l ++ l2).headD d = l.headD d := by
  cases l with
  | nil => exact absurd rfl h
  | cons x xs => rfl

theorem segBreak_true_iff (v : List Rat) (c cMmax : Rat) :
    segBreak v c cMmax = true ↔
      (v.length = 64 ∨ (segMin ≤ v.length ∧ v.headD 0 + cMmax < c)) := by
  simp [segBreak]

theorem buildSegsGo_ne_nil (cMmax : Rat) (l : List Rat) (m : Nat)
    (s : List Nat) (v : List Rat) : buildSegsGo cMmax l m s v ≠ [] := by
  induction l generalizing m s v with
  | nil => simp [buildSegsGo]
  | cons c rest ih =>
    rw [buildSegsGo]
    split_ifs
    · simp
    · exact ih _ _ _

theorem buildSegsGo_spec (cMs : List Rat) (cMmax : Rat) :
    ∀ (l : List Rat) (m : Nat) (s : List Nat) (v : List Rat),
      l = cMs.drop m →
      v = s.map (fun i => cMs.getD i 0) →
      s ≠ [] →
      s.length ≤ 64 →
      (∀ j, 0 < j → j < s.length →
        ¬(j = 64 ∨ (segMin ≤ j ∧
          cMs.getD (s.headD 0) 0 + cMmax < cMs.getD (s.getD j 0) 0))) →
      (buildSegsGo cMmax l m s v).flatten = s ++ List.range' m l.length ∧
      (∃ t r, buildSegsGo cMmax l m s v = (s ++ t) :: r) ∧
      (∀ seg ∈ buildSegsGo cMmax l m s v, seg ≠ [] ∧ seg.length ≤ 64) ∧
      (∀ i, i + 1 < (buildSegsGo cMmax l m s v).length →
        ((buildSegsGo cMmax l m s v).getD i []).length = 64 ∨
        (segMin ≤ ((buildSegsGo cMmax l m s v).getD i []).length ∧
         cMs.getD (((buildSegsGo cMmax l m s v).getD i []).headD 0) 0 + cMmax <
           cMs.getD (((buildSegsGo cMmax l m s v).getD (i + 1) []).headD 0) 0)) ∧
      (∀ seg ∈ buildSegsGo cMmax l m s v, ∀ j, 0 < j → j < seg.length →
        ¬(j = 64 ∨ (segMin ≤ j ∧
          cMs.getD (seg.headD 0) 0 + cMmax < cMs.getD (seg.getD j 0) 0))) := by
  intro l
  induction l with
  | nil =>
    intro m s v _ _ hne hlen hback
    refine ⟨by simp [buildSegsGo], ⟨[], [], by simp [buildSegsGo]⟩, ?_, ?_, ?_⟩
    · intro seg hseg
      rw [buildSegsGo, List.mem_singleton] at hseg
      subst hseg
      exact ⟨hne, hlen⟩
    · intro i hi
      rw [buildSegsGo] at hi
      simp at hi
    · intro seg hseg
      rw [buildSegsGo, List.mem_singleton] at hseg
      subst hseg
      exact hback
  | cons c rest ih =>
    intro m s v hl hv hne hlen hback
    have hc : cMs.getD m 0 = c := by
      have h1 := headD_drop cMs m (0 : Rat)
      rw [← hl] at h1
      simpa using h1.symm
    have hrest : rest = cMs.drop (m + 1) := by
      have h1 := List.tail_drop cMs m
      rw [← hl] at h1
      simpa using h1
    have hvlen : v.length = s.length := by simp [hv]
    have hvhead : v.headD 0 = cMs.getD (s.headD 0) 0 := by
      cases s with
      | nil => exact absurd rfl hne
      | cons a s2 => simp [hv]
    by_cases hbr : segBreak v c cMmax = true
    · -- segment boundary: push `s`, start over from `[m]`, `[c]`
      obtain ⟨hjoin2, hhead2, hok2, hfwd2, hback2⟩ :=
        ih (m + 1) [m] [c] hrest
          (by simp only [List.map_cons, List.map_nil, hc]) (by simp) (by simp)
          (by intro j h0 h1; simp at h1; omega)
      have hbr2 := (segBreak_true_iff v c cMmax).1 hbr
      rw [hvlen, hvhead] at hbr2
      rw [buildSegsGo, if_pos hbr]
      obtain ⟨t, r, hS⟩ := hhead2
      refine ⟨?_, ⟨[], buildSegsGo cMmax rest (m + 1) [m] [c], by simp⟩,
        ?_, ?_, ?_⟩
      · rw [List.flatten_cons, hjoin2]
        simp [List.range'_succ]
      · intro seg hseg
        rcases List.mem_cons.1 hseg with rfl | hseg2
        · exact ⟨hne, hlen⟩
        · exact hok2 seg hseg2
      · intro i hi
        cases i with
        | zero =>
          rw [hS]
          simp only [List.getD_cons_zero, List.getD_cons_succ]
          rcases hbr2 with h | ⟨h1, h2⟩
          · exact Or.inl h
          · refine Or.inr ⟨h1, ?_⟩
            rw [List.cons_append, List.nil_append]
            show _ + _ < cMs.getD m 0
            rw [hc]
            exact h2
        | succ i2 =>
          have h2 := hfwd2 i2 (by simp at hi; omega)
          simpa using h2
      · intro seg hseg
        rcases List.mem_cons.1 hseg with rfl | hseg2
        · exact hback
        · exact hback2 seg hseg2
    · -- no boundary: extend the open segment with `m`
      have hbrf : segBreak v c cMmax = false := by
        simpa using hbr
      have hnot := (segBreak_true_iff v c cMmax).not.1 (by simp [hbrf])
      push_neg at hnot
      obtain ⟨h64, himpl⟩ := hnot
      rw [hvlen] at h64
      rw [hvlen, hvhead] at himpl
      have hbackext : ∀ j, 0 < j → j < (s ++ [m]).length →
          ¬(j = 64 ∨ (segMin ≤ j ∧
            cMs.getD ((s ++ [m]).headD 0) 0 + cMmax <
              cMs.getD ((s ++ [m]).getD j 0) 0)) := by
        intro j h0 h1
        simp only [List.length_append, List.length_singleton] at h1
        rw [headD_append_left s [m] 0 hne]
        by_cases hjs : j < s.length
        · rw [getD_append_lt s [m] j 0 hjs]
          exact hback j h0 hjs
        · have hjeq : j = s.length := by omega
          subst hjeq
          rw [getD_append_len, hc]
          rintro (hj64 | ⟨hmin, hlt⟩)
          · exact h64 hj64
          · exact (himpl hmin).not_lt hlt
      obtain ⟨hjoin2, hhead2, hok2, hfwd2, hback2⟩ :=
        ih (m + 1) (s ++ [m]) (v ++ [c]) hrest
          (by simp only [List.map_append, List.map_cons, List.map_nil, hv, hc])
          (by simp)
          (by simp only [List.length_append, List.length_singleton]; omega)
          hbackext
      rw [buildSegsGo, if_neg (by simp [hbrf])]
      obtain ⟨t, r, hS⟩ := hhead2
      refine ⟨?_, ⟨[m] ++ t, r, by rw [hS, List.append_assoc]⟩, hok2, hfwd2,
        hback2⟩
      · rw [hjoin2, List.append_assoc]
        simp [List.range'_succ]

theorem buildSegs_spec (cMs : List Rat) (cMmax : Rat) (hM : 1 ≤ cMs.length) :
    (buildSegs cMs cMmax).flatten = List.range cMs.length ∧
    (∀ seg ∈ buildSegs cMs cMmax, seg ≠ [] ∧ seg.length ≤ 64) ∧
    (∀ i, i + 1 < (buildSegs cMs cMmax).length →
      ((buildSegs cMs cMmax).getD i []).length = 64 ∨
      (segMin ≤ ((buildSegs cMs cMmax).getD i []).length ∧
       cMs.getD (((buildSegs cMs cMmax).getD i []).headD 0) 0 + cMmax <
         cMs.getD (((buildSegs cMs cMmax).getD (i + 1) []).headD 0) 0)) ∧
    (∀ seg ∈ buildSegs cMs cMmax, ∀ j, 0 < j → j < seg.length →
      ¬(j = 64 ∨ (segMin ≤ j ∧
        cMs.getD (seg.headD 0) 0 + cMmax < cMs.getD (seg.getD j 0) 0))) := by
  cases cMs with
  | nil => simp at hM
  | cons c0 rest =>
    have hbr : segBreak [] c0 cMmax = false := by simp [segBreak, segMin]
    have hstep : buildSegs (c0 :: rest) cMmax =
        buildSegsGo cMmax rest 1 [0] [c0] := by
      rw [buildSegs, buildSegsGo, if_neg (by simp [hbr])]
      simp
    obtain ⟨hjoin, _, hok, hfwd, hback⟩ :=
      buildSegsGo_spec (c0 :: rest) cMmax rest 1 [0] [c0] (by simp)
        (by simp) (by simp) (by simp) (by intro j h0 h1; simp at h1; omega)
    rw [hstep]
    refine ⟨?_, hok, hfwd, hback⟩
    rw [hjoin, List.range_eq_range']
    simp [List.range'_succ]

theorem buildSegs_length_le (cMs : List Rat) (cMmax : Rat) :
    ∀ seg ∈ buildSegs cMs cMmax, seg.length ≤ 64 := by
  cases cMs with
  | nil =>
    intro seg hseg
    rw [buildSegs, buildSegsGo, List.mem_singleton] at hseg
    subst hseg
    simp
  | cons c0 rest =>
    intro seg hseg
    exact ((buildSegs_spec (c0 :: rest) cMmax (by simp)).2.1 seg hseg).2

/-- Claim C1: for at least 2 accepted variants, `buildGenoBits` partitions
the variant indices `0..M-1` in order into contiguous segments
(`flatten = range M`, so the segment lengths sum to `M`); every segment has
between 1 and 64 variants; a boundary is placed after a segment exactly when
the boundary test of line 375 fired — the segment had 64 variants, or it had
at least `segMin = 16` and the next variant's centiMorgan coordinate exceeds
the segment's first coordinate by more than `cMmax` (forward direction), and
at no interior position of a segment did that test hold (backward
direction). -/
theorem c1_segmentation (cMs : List Rat) (cMmax : Rat)
    (hM : 2 ≤ cMs.length) :
    (buildSegs cMs cMmax).flatten = List.range cMs.length ∧
    ((buildSegs cMs cMmax).map List.length).sum = cMs.length ∧
    (∀ seg ∈ buildSegs cMs cMmax, 1 ≤ seg.length ∧ seg.length ≤ 64) ∧
    (∀ i, i + 1 < (buildSegs cMs cMmax).length →
      ((buildSegs cMs cMmax).getD i []).length = 64 ∨
      (segMin ≤ ((buildSegs cMs cMmax).getD i []).length ∧
       cMs.getD (((buildSegs cMs cMmax).getD i []).headD 0) 0 + cMmax <
         cMs.getD (((buildSegs cMs cMmax).getD (i + 1) []).headD 0) 0)) ∧
    (∀ seg ∈ buildSegs cMs cMmax, ∀ j, 0 < j → j < seg.length →
      ¬(j = 64 ∨ (segMin ≤ j ∧
        cMs.getD (seg.headD 0) 0 + cMmax < cMs.getD (seg.getD j 0) 0))) := by
  obtain ⟨hjoin, hok, hfwd, hback⟩ := buildSegs_spec cMs cMmax (by omega)
  refine ⟨hjoin, ?_, ?_, hfwd, hback⟩
  · rw [← List.length_flatten, hjoin, List.length_range]
  · intro seg hseg
    obtain ⟨h1, h2⟩ := hok seg hseg
    exact ⟨List.length_pos.2 h1, h2⟩

/-- Claim C2: in every segment's packed masks, for every individual
(reference or target) and every local bit position `j` at or beyond the
segment's actual length (and below 64), the padding loop of lines 407-409
has set `is9`, while `is0` and `is2` are clear (the content loops of lines
394-405 only touch bits below the segment length). -/
theorem c2_padding_bits (haps : List Bool) (genos : List Nat) (cMs : List Rat)
    (cMmax : Rat) (Nref Ntarget : Nat) (i n j : Nat)
    (hi : i < (buildSegs cMs cMmax).length) (hn : n < Nref + Ntarget)
    (hj : ((buildSegs cMs cMmax).getD i []).length ≤ j) (hj64 : j < 64) :
    (((buildGenoBits haps genos cMs cMmax Nref Ntarget).getD i []).getD n
        ⟨0, 0, 0⟩).is9.testBit j = true ∧
    (((buildGenoBits haps genos cMs cMmax Nref Ntarget).getD i []).getD n
        ⟨0, 0, 0⟩).is0.testBit j = false ∧
    (((buildGenoBits haps genos cMs cMmax Nref Ntarget).getD i []).getD n
        ⟨0, 0, 0⟩).is2.testBit j = false := by
  rw [buildGenoBits_cell haps genos cMs cMmax Nref Ntarget i n hi hn]
  have hseg64 : ((buildSegs cMs cMmax).getD i []).length ≤ 64 :=
    buildSegs_length_le cMs cMmax _ (getD_mem_of_lt _ i [] hi)
  have hjmem : j ∈ List.range' ((buildSegs cMs cMmax).getD i []).length
      (64 - ((buildSegs cMs cMmax).getD i []).length) := by
    rw [mem_range'_iff]
    omega
  have hnotlt : ¬ j < ((buildSegs cMs cMmax).getD i []).length := by omega
  by_cases hn2 : n < Nref
  · refine ⟨?_, ?_, ?_⟩
    · rw [packCell_ref_is9 _ _ _ _ _ _ _ hn2]
      exact decide_eq_true hjmem
    · rw [packCell_ref_is0 _ _ _ _ _ _ _ hn2, decide_eq_false hnotlt,
        Bool.false_and]
    · rw [packCell_ref_is2 _ _ _ _ _ _ _ hn2, decide_eq_false hnotlt,
        Bool.false_and]
  · refine ⟨?_, ?_, ?_⟩
    · rw [packCell_tgt_is9 _ _ _ _ _ _ _ hn2, decide_eq_true hjmem,
        Bool.or_true]
    · rw [packCell_tgt_is0 _ _ _ _ _ _ _ hn2, decide_eq_false hnotlt,
        Bool.false_and]
    · rw [packCell_tgt_is2 _ _ _ _ _ _ _ hn2, decide_eq_false hnotlt,
        Bool.false_and]

/-- Claim C5: for a target individual `n` (so `Nref ≤ n < Nref + Ntarget`)
and a variant at local position `j` of segment `i` whose genotype code is 1
(heterozygous, non-missing), the packed `is0`, `is2` and `is9` bits at
position `j` are all 0 — code 1 is the implicit all-clear fourth state. -/
theorem c5_het_code1_bits (haps : List Bool) (genos : List Nat)
    (cMs : List Rat) (cMmax : Rat) (Nref Ntarget : Nat) (i n j : Nat)
    (hi : i < (buildSegs cMs cMmax).length) (hnlo : Nref ≤ n)
    (hn : n < Nref + Ntarget)
    (hj : j < ((buildSegs cMs cMmax).getD i []).length)
    (hgeno : genos.getD
      ((((buildSegs cMs cMmax).getD i []).getD j 0) * Ntarget + (n - Nref)) 0
      = 1) :
    (((buildGenoBits haps genos cMs cMmax Nref Ntarget).getD i []).getD n
        ⟨0, 0, 0⟩).is0.testBit j = false ∧
    (((buildGenoBits haps genos cMs cMmax Nref Ntarget).getD i []).getD n
        ⟨0, 0, 0⟩).is2.testBit j = false ∧
    (((buildGenoBits haps genos cMs cMmax Nref Ntarget).getD i []).getD n
        ⟨0, 0, 0⟩).is9.testBit j = false := by
  rw [buildGenoBits_cell haps genos cMs cMmax Nref Ntarget i n hi hn]
  have hn2 : ¬ n < Nref := by omega
  have hmemnot : ¬ j ∈
      List.range' ((buildSegs cMs cMmax).getD i []).length
        (64 - ((buildSegs cMs cMmax).getD i []).length) := by
    rw [mem_range'_iff]
    omega
  refine ⟨?_, ?_, ?_⟩
  · rw [packCell_tgt_is0 _ _ _ _ _ _ _ hn2, hgeno]
    simp
  · rw [packCell_tgt_is2 _ _ _ _ _ _ _ hn2, hgeno]
    simp
  · rw [packCell_tgt_is9 _ _ _ _ _ _ _ hn2, hgeno,
      decide_eq_false hmemnot, Bool.or_false]
    simp

/-- Claim C10: on the reference side (`n < Nref`), `is9` can come only from
the padding loop of lines 407-409, so every bit at a position `j` inside the
segment's actual length is 0; correspondingly, a missing reference call is
coerced to the REF allele at lines 71-74 (both haplotype booleans false
before the `refAltSwap` inversion), so missing data never reaches `is9`. -/
theorem c10_ref_is9_padding_only :
    (∀ (haps : List Bool) (genos : List Nat) (cMs : List Rat) (cMmax : Rat)
       (Nref Ntarget : Nat) (i n j : Nat),
      i < (buildSegs cMs cMmax).length → n < Nref →
      j < ((buildSegs cMs cMmax).getD i []).length →
      (((buildGenoBits haps genos cMs cMmax Nref Ntarget).getD i []).getD n
          ⟨0, 0, 0⟩).is9.testBit j = false) ∧
    (∀ (a0 a1 : GtVal) (swap : Bool) (w : Nat),
      isVectorEnd a0 = false → isVectorEnd a1 = false →
      (isMissing a0 || isMissing a1) = true →
      processRefSample a0 a1 swap w =
        some ((swap, swap), (true, false), w)) := by
  constructor
  · intro haps genos cMs cMmax Nref Ntarget i n j hi hn hj
    have hn2 : n < Nref + Ntarget := by omega
    rw [buildGenoBits_cell haps genos cMs cMmax Nref Ntarget i n hi hn2]
    have hmemnot : ¬ j ∈
        List.range' ((buildSegs cMs cMmax).getD i []).length
          (64 - ((buildSegs cMs cMmax).getD i []).length) := by
      rw [mem_range'_iff]
      omega
    rw [packCell_ref_is9 _ _ _ _ _ _ _ hn]
    exact decide_eq_false hmemnot
  · intro a0 a1 swap w hv0 hv1 hm
    rw [processRefSample, hv0, hv1, if_neg (by simp), if_pos hm]
    cases swap <;> rfl

/-! ### Concrete witnesses -/

theorem c1_segmentation_witness :
    ((buildSegs [(0 : Rat), 1] 10).map List.length).sum = 2 :=
  (c1_segmentation [0, 1] 10 (by decide)).2.1

theorem c2_padding_bits_witness :
    (((buildGenoBits [] [] [(0 : Rat)] 0 1 0).getD 0 []).getD 0
        ⟨0, 0, 0⟩).is9.testBit 1 = true :=
  (c2_padding_bits [] [] [(0 : Rat)] 0 1 0 0 0 1 (by decide) (by decide)
    (by decide) (by decide)).1

theorem c3_target_codes_witness :
    (process_target_genotypes
      [(GtVal.allele 0 true, GtVal.allele 1 true),
       (GtVal.missing, GtVal.allele 0 false)]).isSome = true := by
  obtain ⟨gs, nm, hrun, -⟩ := c3_target_codes
    [(GtVal.allele 0 true, GtVal.allele 1 true),
     (GtVal.missing, GtVal.allele 0 false)] (by decide)
  rw [hrun]
  rfl

theorem c4_phase_randomization_witness :
    (process_ref_genotypes [(GtVal.allele 0 true, GtVal.allele 1 false)]
      false initW).isSome = true := by
  obtain ⟨hs, nm, nu, hrun, -⟩ := c4_phase_randomization
    [(GtVal.allele 0 true, GtVal.allele 1 false)] false (by decide)
  rw [hrun]
  rfl

theorem c5_het_code1_bits_witness :
    (((buildGenoBits [] [1] [(0 : Rat)] 0 0 1).getD 0 []).getD 0
        ⟨0, 0, 0⟩).is0.testBit 0 = false :=
  (c5_het_code1_bits [] [1] [(0 : Rat)] 0 0 1 0 0 0 (by decide) (by decide)
    (by decide) (by decide) (by decide)).1

theorem c6_unphased_counter_witness :
    ∃ haps mi ui w2,
      processRefSample (GtVal.allele 0 true) (GtVal.allele 0 false) false 7 =
        some (haps, (mi, ui), w2) ∧
      ui = (!(isMissing (GtVal.allele 0 true) ||
              isMissing (GtVal.allele 0 false)) &&
            unphasedFlag (GtVal.allele 0 false)) ∧
      (hapVal (GtVal.allele 0 true) = hapVal (GtVal.allele 0 false) →
        w2 = 7) :=
  c6_unphased_counter (GtVal.allele 0 true) (GtVal.allele 0 false) false 7
    (by decide) (by decide)

theorem c7_reconcileAlleles_witness :
    reconcileAlleles ["A", "C"] ["C", "A"] = ReconcileResult.proceed true :=
  (c7_reconcileAlleles_cases ["A", "C"] ["C", "A"]).2.2.1 rfl rfl
    (by decide) rfl rfl

theorem c8_refAltSwap_complement_witness :
    process_ref_genotypes [(GtVal.allele 0 true, GtVal.allele 1 true)]
      true 5 = some ([true, false], 0, 0, 5) :=
  c8_refAltSwap_complement ["A", "C"] ["C", "A"]
    [(GtVal.allele 0 true, GtVal.allele 1 true)] 5 [false, true] 0 0 5
    (by decide) (by decide)

theorem c10_ref_is9_padding_only_witness :
    (((buildGenoBits [] [] [(0 : Rat)] 0 1 0).getD 0 []).getD 0
        ⟨0, 0, 0⟩).is9.testBit 0 = false ∧
    processRefSample GtVal.missing (GtVal.allele 1 true) false 3 =
      some ((false, false), (true, false), 3) :=
  ⟨c10_ref_is9_padding_only.1 [] [] [(0 : Rat)] 0 1 0 0 0 0 (by decide)
      (by decide) (by decide),
   c10_ref_is9_padding_only.2 GtVal.missing (GtVal.allele 1 true) false 3
      rfl rfl rfl⟩
